import Mathlib

/-!
Verification development for the LAX flight-observation tool
(`streamlit_app.py`).  The scheduling core — catalog normalization, the
greedy schedule-suggestion engine, and the sign-up (confirmation)
operation — is embedded as executable Lean definitions, translated
directly from the Python source.  Times are modelled as minutes
(integers); strings are modelled as `String` or `List Char`.
-/

namespace FlightObs

/-! ### String helpers mirroring Python `str` methods -/

/-- Python `str.strip()` on a character list: drop leading and trailing
whitespace. -/
def stripChars (l : List Char) : List Char :=
  ((l.dropWhile Char.isWhitespace).reverse.dropWhile Char.isWhitespace).reverse

/-- Python `str.strip()` on a `String`. -/
def strip (s : String) : String :=
  ⟨stripChars s.data⟩

/-- Lower-case a character list (Python `str.lower()`). -/
def lowerChars (l : List Char) : List Char :=
  l.map Char.toLower

/-- Does `pat` occur at the head of `hay`? -/
def leadsWith : List Char → List Char → Bool
  | [], _ => true
  | _ :: _, [] => false
  | a :: pa, b :: hb => a = b && leadsWith pa hb

/-- Does `pat` occur as a contiguous subsequence of `hay`?  Models Python
substring containment (`pat in hay`). -/
def occursIn (pat : List Char) : List Char → Bool
  | [] => leadsWith pat []
  | c :: t => leadsWith pat (c :: t) || occursIn pat t

/-- Case-insensitive substring test: models
`Series.str.contains(pat, case=False)` as used on the `Observers` column
(regular-expression metacharacters are not modelled; observer names are
plain words). -/
def containsCI (hay pat : String) : Bool :=
  occursIn (lowerChars pat.data) (lowerChars hay.data)

/-! ### Comma-separated observer lists (`sign_up_for_flights`) -/

/-- Python `str.split(',')`: split at every comma, keeping empty chunks. -/
def splitComma : List Char → List (List Char)
  | [] => [[]]
  | c :: rest =>
    match splitComma rest with
    | [] => [[]]
    | g :: gs => if c = ',' then [] :: g :: gs else (c :: g) :: gs

/-- The observer list read from a cell:
`[obs.strip() for obs in cell.split(',') if obs.strip()]`. -/
def parseObs (cell : List Char) : List (List Char) :=
  ((splitComma cell).map stripChars).filter (· ≠ [])

/-- Python `", ".join(gs)`. -/
def joinObs : List (List Char) → List Char
  | [] => []
  | [g] => g
  | g :: g' :: rest => g ++ ',' :: ' ' :: joinObs (g' :: rest)

/-- The new value queued for the `Observers` cell when signing `name` up:
`some newValue` when the name is absent (a cell update is queued),
`none` when the name is already present (warning, no update). -/
def signUpCell (name cell : List Char) : Option (List Char) :=
  let obs := parseObs cell
  if stripChars name ∈ obs then none
  else some (joinObs (obs ++ [stripChars name]))

/-- The resulting `Observers` cell value after one sign-up attempt. -/
def signUpObservers (name cell : List Char) : List Char :=
  (signUpCell name cell).getD cell

/-! ### Sheet model for `sign_up_for_flights` -/

/-- One live sheet row as seen by `sign_up_for_flights`: its
`FLIGHT OUT` value and its `Observers` cell. -/
structure SheetRow where
  flightNum : List Char
  observers : List Char
deriving DecidableEq

/-- Locate a flight number in the live sheet
(`all_flight_nums.index(str(flight_num))`), returning the row index and
row; `none` models the `ValueError` branch. -/
def lookupRow (sheet : List SheetRow) (num : List Char) : Option (Nat × SheetRow) :=
  match List.findIdx? (fun r => r.flightNum = num) sheet with
  | none => none
  | some i => (sheet.get? i).map (fun r => (i, r))

/-- One iteration of the `for flight_num in flights_to_sign_up` loop:
queue a cell update, record an already-signed no-op, or record a
not-found warning. -/
def updStep (sheet : List SheetRow) (name : List Char)
    (acc : List (Nat × List Char) × List (List Char)) (num : List Char) :
    List (Nat × List Char) × List (List Char) :=
  match lookupRow sheet num with
  | none => (acc.1, acc.2 ++ [num])
  | some (i, row) =>
    match signUpCell name row.observers with
    | none => acc
    | some v => (acc.1 ++ [(i, v)], acc.2)

/-- Accumulate `cells_to_update` and the not-found warnings over the
selected flight numbers, scanning them in order. -/
def collectUpdates (sheet : List SheetRow) (name : List Char)
    (nums : List (List Char)) : List (Nat × List Char) × List (List Char) :=
  nums.foldl (updStep sheet name) ([], [])

/-- Overwrite the observers cell of row `i`. -/
def setObs : List SheetRow → Nat → List Char → List SheetRow
  | [], _, _ => []
  | r :: rs, 0, v => { r with observers := v } :: rs
  | r :: rs, n + 1, v => r :: setObs rs n v

/-- Apply the queued cell updates (`update_cells`). -/
def applyUpdates (sheet : List SheetRow) (cells : List (Nat × List Char)) :
    List SheetRow :=
  cells.foldl (fun s c => setObs s c.1 c.2) sheet

/-- The full confirmation operation: returns the updated sheet and the
list of flight numbers skipped because they were not found. -/
def sign_up_for_flights (name : List Char) (nums : List (List Char))
    (sheet : List SheetRow) : List SheetRow × List (List Char) :=
  let cw := collectUpdates sheet name nums
  (applyUpdates sheet cw.1, cw.2)

/-! ### Flight catalog loader (`get_sheet_data`) -/

/-- A raw sheet record before time parsing (one row of
`get_all_records()`, restricted to the columns the core consumes).
Raw time cells are `Option String`: `none` models a missing value. -/
structure RawRecord where
  flightOut : String
  depGate : String
  arr : String
  hasEquipment : String
  important : String
  observers : String
  boardStartRaw : Option String
  boardEndRaw : Option String
  etdRaw : Option String
deriving DecidableEq

/-- Model of `parse_and_localize_time`: the underlying library parser
`p` returns `some minutes` on success and `none` on failure
(`pd.to_datetime(..., errors='coerce')` never raises, it coerces to
NaT); empty or missing input is mapped to NaT directly. -/
def parse_and_localize_time (p : String → Option Int) (v : Option String) :
    Option Int :=
  match v with
  | none => none
  | some s => if s = "" then none else p s

/-- A normalized flight row after `get_sheet_data`: time columns hold
`none` exactly where the sheet value was NaT. -/
structure Flight where
  flightOut : String
  depGate : String
  arr : String
  hasEquipment : String
  important : String
  observers : String
  boardStart? : Option Int
  boardEnd? : Option Int
  etd? : Option Int
deriving DecidableEq

/-- Normalize one raw record (the per-column `apply(parse_and_localize_time)`). -/
def loadFlight (p : String → Option Int) (r : RawRecord) : Flight :=
  { flightOut := r.flightOut
    depGate := r.depGate
    arr := r.arr
    hasEquipment := r.hasEquipment
    important := r.important
    observers := r.observers
    boardStart? := parse_and_localize_time p r.boardStartRaw
    boardEnd? := parse_and_localize_time p r.boardEndRaw
    etd? := parse_and_localize_time p r.etdRaw }

/-- Normalize a whole sheet. -/
def loadCatalog (p : String → Option Int) (rs : List RawRecord) : List Flight :=
  rs.map (loadFlight p)

/-- The time-ordered "today" view:
`df.dropna(subset=['Est. Boarding Start'])` followed by the
`Est. Boarding Start >= now` filter. -/
def upcomingView (now : Int) (cat : List Flight) : List Flight :=
  cat.filter (fun f =>
    match f.boardStart? with
    | some t => decide (now ≤ t)
    | none => false)

/-! ### Scheduling-eligible flights -/

/-- Python `str(x).strip().lower() == 'yes'` (the `isImportant` column). -/
def isImportantVal (s : String) : Bool :=
  lowerChars (stripChars s.data) = "yes".data

/-- A flight admitted to `all_flights_for_scheduling`: the equipment and
`notna` filters have passed, so both boarding times are concrete. -/
structure SFlight where
  flightOut : String
  depGate : String
  arr : String
  observers : String
  isImportant : Bool
  boardStart : Int
  boardEnd : Int
deriving DecidableEq

/-- The `all_flights_for_scheduling` filter
(`Has Equipment == 'Yes'`, both boarding times not NaT), fused with the
refinement to concrete times. -/
def toSched (f : Flight) : Option SFlight :=
  if f.hasEquipment = "Yes" then
    match f.boardStart?, f.boardEnd? with
    | some bs, some be =>
      some { flightOut := f.flightOut
             depGate := f.depGate
             arr := f.arr
             observers := f.observers
             isImportant := isImportantVal f.important
             boardStart := bs
             boardEnd := be }
    | _, _ => none
  else none

/-- `all_flights_for_scheduling` for a normalized catalog. -/
def schedCat (cat : List Flight) : List SFlight :=
  cat.filterMap toSched

/-- `busyStart = Est. Boarding Start - 10min`. -/
def busyStart (f : SFlight) : Int := f.boardStart - 10

/-- `busyEnd = Est. Boarding End + 10min`. -/
def busyEnd (f : SFlight) : Int := f.boardEnd + 10

/-! ### Gate parsing and candidate scoring -/

/-- Result of `parse_gate`: `number = none` models `float('inf')`
(no digits in the gate string). -/
structure GateInfo where
  concourse : Option Char
  number : Option Nat
deriving DecidableEq

/-- Digit string to a natural number (Python `int(...)` on a digit string). -/
def digitsToNat (l : List Char) : Nat :=
  l.foldl (fun n c => n * 10 + (c.toNat - '0'.toNat)) 0

/-- Model of `parse_gate`. -/
def parse_gate (gate : String) : GateInfo :=
  if gate.data = [] then ⟨none, none⟩
  else
    let stripped := stripChars gate.data
    let concourse :=
      match stripped with
      | [] => none
      | c :: _ => some c.toUpper
    let digits := gate.data.filter Char.isDigit
    ⟨concourse, if digits = [] then none else some (digitsToNat digits)⟩

/-- `last_flight['busyEnd'] if last_flight else observer start time`. -/
def lastBE : Option SFlight → Int → Int
  | some f, _ => busyEnd f
  | none, startTs => startTs

/-- The `downtime` score column:
`(busyStart - last_flight_busy_end).total_seconds()/60` when a previous
flight exists, else `0`. -/
def downtime (lastF : Option SFlight) (lbe : Int) (g : SFlight) : Int :=
  match lastF with
  | some _ => busyStart g - lbe
  | none => 0

/-- The `importance_score` column: `0 if isImportant else 1`. -/
def importance_score (g : SFlight) : Nat :=
  if g.isImportant then 0 else 1

/-- The `gate_score` column.  `none` models the non-finite float results
(`inf` when exactly one gate number is missing, `nan` when both are):
pandas sorts both after every finite score. -/
def gate_score (lastF : Option SFlight) (g : SFlight) : Option ℚ :=
  match lastF with
  | none => some 15
  | some lf =>
    let lp := parse_gate lf.depGate
    let gp := parse_gate g.depGate
    if gp.concourse = lp.concourse then
      match gp.number, lp.number with
      | some a, some b => some ((Int.natAbs ((a : Int) - (b : Int)) : ℚ) / 10)
      | _, _ => none
    else some 15

/-- The sort key of `sort_values(by=['downtime', 'importance_score',
'gate_score'])`, in the source's column order. -/
abbrev Score := Int × Nat × Option ℚ

/-- Score triple of a candidate, given the previous flight and
`last_flight_busy_end`. -/
def scoreKey (lastF : Option SFlight) (lbe : Int) (g : SFlight) : Score :=
  (downtime lastF lbe g, importance_score g, gate_score lastF g)

/-- Strict order on the gate-score column, non-finite values last. -/
def optLT : Option ℚ → Option ℚ → Bool
  | some a, some b => decide (a < b)
  | some _, none => true
  | none, _ => false

/-- Strict lexicographic order on score triples (the sort order of
`sort_values` over the three score columns). -/
def scoreLT (x y : Score) : Bool :=
  decide (x.1 < y.1) ||
    (decide (x.1 = y.1) &&
      (decide (x.2.1 < y.2.1) ||
        (decide (x.2.1 = y.2.1) && optLT x.2.2 y.2.2)))

/-- First element of the list attaining the minimal score (the row
`sort_values(...).iloc[0]` with ties kept in frame order). -/
def pickBest (key : SFlight → Score) : List SFlight → Option SFlight
  | [] => none
  | f :: rest =>
    match pickBest key rest with
    | none => some f
    | some b => if scoreLT (key b) (key f) then some b else some f

/-! ### The greedy loop -/

/-- The mutable loop state: accumulated `schedule`, `lastFlight`, and
`available_flights_pool`. -/
structure EngState where
  schedule : List SFlight
  lastFlight : Option SFlight
  pool : List SFlight
deriving DecidableEq

/-- `potential_next_flights`: pool rows with
`Est. Boarding Start >= last_flight_busy_end` and
`Est. Boarding End <= observer end time`. -/
def eligiblePool (pool : List SFlight) (lbe we : Int) : List SFlight :=
  pool.filter (fun f => decide (lbe ≤ f.boardStart) && decide (f.boardEnd ≤ we))

/-- One iteration of the greedy `while` loop: `none` when no assignment
is made (empty eligible pool, ending the loop), otherwise the new state
with the best candidate appended and its flight number removed from the
pool. -/
def greedyStep (ws we : Int) (st : EngState) : Option EngState :=
  let lbe := lastBE st.lastFlight ws
  match pickBest (scoreKey st.lastFlight lbe) (eligiblePool st.pool lbe we) with
  | none => none
  | some b =>
    some { schedule := st.schedule ++ [b]
           lastFlight := some b
           pool := st.pool.filter (fun f => f.flightOut ≠ b.flightOut) }

/-- The greedy loop, fuelled; `suggestSchedule` supplies fuel equal to
the initial pool size, which is shown sufficient. -/
def greedyRun (ws we : Int) : Nat → EngState → EngState
  | 0, st => st
  | n + 1, st =>
    match greedyStep ws we st with
    | none => st
    | some st' => greedyRun ws we n st'

/-! ### The suggestion pipeline -/

/-- `candidate_flights`: unassigned rows or rows already containing the
observer's (stripped) name. -/
def candidateFlights (cat : List SFlight) (nameT : String) : List SFlight :=
  cat.filter (fun f => strip f.observers = "" || containsCI f.observers nameT)

/-- `pre_assigned_flights`: candidates bearing the observer's name whose
boarding interval lies inside the requested window. -/
def preAssigned (cands : List SFlight) (nameT : String) (ws we : Int) :
    List SFlight :=
  cands.filter (fun f =>
    containsCI f.observers nameT && decide (ws ≤ f.boardStart) &&
      decide (f.boardEnd ≤ we))

/-- `available_flights_pool`: candidates whose flight number is not among
the pre-assigned flight numbers. -/
def availablePool (cands pre : List SFlight) : List SFlight :=
  cands.filter (fun f => !((pre.map (fun g => g.flightOut)).contains f.flightOut))

/-- Sort by `Est. Boarding Start` ascending. -/
def sortByBoardStart (l : List SFlight) : List SFlight :=
  l.insertionSort (fun a b => a.boardStart ≤ b.boardStart)

/-- The initial `user_observer_state`: pre-assigned flights (sorted by
boarding start) seed the schedule, their last element seeds the
`lastFlight` cursor. -/
def initState (cat : List SFlight) (nameT : String) (ws we : Int) : EngState :=
  let cands := candidateFlights cat nameT
  let pre := preAssigned cands nameT ws we
  let sched0 := sortByBoardStart pre
  { schedule := sched0
    lastFlight := sched0.getLast?
    pool := availablePool cands pre }

/-- The complete suggestion engine over scheduling-eligible flights:
run the greedy loop to exhaustion and present the schedule sorted by
boarding start. -/
def suggestSchedule (cat : List SFlight) (name : String) (ws we : Int) :
    List SFlight :=
  let st0 := initState cat (strip name) ws we
  sortByBoardStart (greedyRun ws we st0.pool.length st0).schedule

/-- The suggestion engine over a normalized catalog, including the
`all_flights_for_scheduling` filter. -/
def suggestFromCatalog (cat : List Flight) (name : String) (ws we : Int) :
    List SFlight :=
  suggestSchedule (schedCat cat) name ws we

/-! ### Order lemmas for the score comparison -/

theorem optLT_irrefl (a : Option ℚ) : optLT a a = false := by
  cases a <;> simp [optLT]

theorem optLT_trans {a b c : Option ℚ} (h1 : optLT a b = true)
    (h2 : optLT b c = true) : optLT a c = true := by
  cases a <;> cases b <;> cases c <;> simp_all [optLT]
  exact lt_trans h1 h2

theorem optLT_antisymm {a b : Option ℚ} (h1 : optLT a b = false)
    (h2 : optLT b a = false) : a = b := by
  cases a <;> cases b <;> simp_all [optLT]
  exact le_antisymm h2 h1

theorem scoreLT_irrefl (x : Score) : scoreLT x x = false := by
  simp [scoreLT, optLT_irrefl]

theorem scoreLT_trans {x y z : Score} (h1 : scoreLT x y = true)
    (h2 : scoreLT y z = true) : scoreLT x z = true := by
  obtain ⟨x1, x2, x3⟩ := x
  obtain ⟨y1, y2, y3⟩ := y
  obtain ⟨z1, z2, z3⟩ := z
  simp only [scoreLT, Bool.or_eq_true, Bool.and_eq_true, decide_eq_true_eq]
    at h1 h2 ⊢
  rcases h1 with h1 | ⟨e1, h1⟩
  · rcases h2 with h2 | ⟨e2, h2⟩
    · exact Or.inl (by omega)
    · exact Or.inl (by omega)
  · rcases h2 with h2 | ⟨e2, h2⟩
    · exact Or.inl (by omega)
    · refine Or.inr ⟨by omega, ?_⟩
      rcases h1 with h1 | ⟨e1', h1⟩
      · rcases h2 with h2 | ⟨e2', h2⟩
        · exact Or.inl (by omega)
        · exact Or.inl (by omega)
      · rcases h2 with h2 | ⟨e2', h2⟩
        · exact Or.inl (by omega)
        · exact Or.inr ⟨by omega, optLT_trans h1 h2⟩

theorem scoreLT_antisymm {x y : Score} (h1 : scoreLT x y = false)
    (h2 : scoreLT y x = false) : x = y := by
  obtain ⟨x1, x2, x3⟩ := x
  obtain ⟨y1, y2, y3⟩ := y
  have h1' : ¬ scoreLT (x1, x2, x3) (y1, y2, y3) = true := by simp [h1]
  have h2' : ¬ scoreLT (y1, y2, y3) (x1, x2, x3) = true := by simp [h2]
  simp only [scoreLT, Bool.or_eq_true, Bool.and_eq_true, decide_eq_true_eq,
    not_or] at h1' h2'
  obtain ⟨ha1, hb1⟩ := h1'
  obtain ⟨ha2, hb2⟩ := h2'
  have e1 : x1 = y1 := by omega
  subst e1
  have hb1' : ¬ (x2 < y2 ∨ (x2 = y2 ∧ optLT x3 y3 = true)) := fun h => hb1 ⟨rfl, h⟩
  have hb2' : ¬ (y2 < x2 ∨ (y2 = x2 ∧ optLT y3 x3 = true)) := fun h => hb2 ⟨rfl, h⟩
  rw [not_or] at hb1' hb2'
  obtain ⟨hc1, hd1⟩ := hb1'
  obtain ⟨hc2, hd2⟩ := hb2'
  have e2 : x2 = y2 := by omega
  subst e2
  have e3 : x3 = y3 := by
    apply optLT_antisymm
    · cases hoc : optLT x3 y3
      · rfl
      · exact absurd ⟨rfl, hoc⟩ hd1
    · cases hoc : optLT y3 x3
      · rfl
      · exact absurd ⟨rfl, hoc⟩ hd2
  simp [e3]

theorem scoreLT_asymm {x y : Score} (h : scoreLT x y = true) :
    scoreLT y x = false := by
  cases hc : scoreLT y x
  · rfl
  · have := scoreLT_trans h hc
    rw [scoreLT_irrefl] at this
    exact absurd this (by simp)

/-! ### Properties of `pickBest` -/

theorem pickBest_eq_none {key : SFlight → Score} {l : List SFlight} :
    pickBest key l = none ↔ l = [] := by
  cases l with
  | nil => simp [pickBest]
  | cons f rest =>
    simp only [pickBest]
    cases pickBest key rest with
    | none => simp
    | some b =>
      by_cases h : scoreLT (key b) (key f) = true <;> simp [h]

theorem pickBest_mem {key : SFlight → Score} (l : List SFlight) :
    ∀ {b : SFlight}, pickBest key l = some b → b ∈ l := by
  induction l with
  | nil => intro b h; simp [pickBest] at h
  | cons f rest ih =>
    intro b h
    rw [pickBest] at h
    cases hr : pickBest key rest with
    | none =>
      rw [hr] at h
      injection h with h
      subst h
      exact List.mem_cons_self _ _
    | some b0 =>
      rw [hr] at h
      by_cases hlt : scoreLT (key b0) (key f) = true
      · simp only [hlt, if_true] at h
        injection h with h
        subst h
        exact List.mem_cons_of_mem _ (ih hr)
      · simp only [hlt, if_false] at h
        injection h with h
        subst h
        exact List.mem_cons_self _ _

theorem pickBest_min {key : SFlight → Score} (l : List SFlight) :
    ∀ {b : SFlight}, pickBest key l = some b →
      ∀ g ∈ l, scoreLT (key g) (key b) = false := by
  induction l with
  | nil => intro b h; simp [pickBest] at h
  | cons f rest ih =>
    intro b h g hg
    rw [pickBest] at h
    cases hr : pickBest key rest with
    | none =>
      rw [hr] at h
      injection h with h
      subst h
      rcases List.mem_cons.mp hg with rfl | hg
      · exact scoreLT_irrefl _
      · rw [pickBest_eq_none.mp hr] at hg
        simp at hg
    | some b0 =>
      rw [hr] at h
      by_cases hlt : scoreLT (key b0) (key f) = true
      · simp only [hlt, if_true] at h
        injection h with h
        subst h
        rcases List.mem_cons.mp hg with rfl | hg
        · exact scoreLT_asymm hlt
        · exact ih hr g hg
      · simp only [hlt, if_false] at h
        injection h with h
        subst h
        rcases List.mem_cons.mp hg with rfl | hg
        · exact scoreLT_irrefl _
        · have hgb0 := ih hr g hg
          have hlt' : scoreLT (key b0) (key f) = false := by
            cases hx : scoreLT (key b0) (key f)
            · rfl
            · exact absurd hx hlt
          cases hgf : scoreLT (key g) (key f)
          · rfl
          · rcases Bool.eq_false_or_eq_true (scoreLT (key f) (key b0)) with hfb | hfb
            · have := scoreLT_trans hgf hfb
              rw [this] at hgb0
              exact absurd hgb0 (by simp)
            · have hkey : key b0 = key f := scoreLT_antisymm hlt' hfb
              rw [← hkey] at hgf
              rw [hgf] at hgb0
              exact absurd hgb0 (by simp)

theorem pickBest_first {key : SFlight → Score} (l : List SFlight) :
    ∀ {b : SFlight}, pickBest key l = some b →
      ∃ l1 l2, l = l1 ++ b :: l2 ∧ ∀ g ∈ l1, scoreLT (key b) (key g) = true := by
  induction l with
  | nil => intro b h; simp [pickBest] at h
  | cons f rest ih =>
    intro b h
    rw [pickBest] at h
    cases hr : pickBest key rest with
    | none =>
      rw [hr] at h
      injection h with h
      subst h
      exact ⟨[], rest, rfl, by simp⟩
    | some b0 =>
      rw [hr] at h
      by_cases hlt : scoreLT (key b0) (key f) = true
      · simp only [hlt, if_true] at h
        injection h with h
        subst h
        obtain ⟨l1, l2, hdec, hl1⟩ := ih hr
        refine ⟨f :: l1, l2, by simp [hdec], ?_⟩
        intro g hg
        rcases List.mem_cons.mp hg with rfl | hg
        · exact hlt
        · exact hl1 g hg
      · simp only [hlt, if_false] at h
        injection h with h
        subst h
        exact ⟨[], rest, rfl, by simp⟩

/-! ### Lemmas about the greedy loop -/

theorem mem_eligiblePool {pool : List SFlight} {lbe we : Int} {g : SFlight} :
    g ∈ eligiblePool pool lbe we ↔
      g ∈ pool ∧ lbe ≤ g.boardStart ∧ g.boardEnd ≤ we := by
  simp [eligiblePool, List.mem_filter, and_assoc]

theorem greedyStep_eq_some {ws we : Int} {st st' : EngState}
    (h : greedyStep ws we st = some st') :
    ∃ b, pickBest (scoreKey st.lastFlight (lastBE st.lastFlight ws))
          (eligiblePool st.pool (lastBE st.lastFlight ws) we) = some b ∧
        st' = { schedule := st.schedule ++ [b]
                lastFlight := some b
                pool := st.pool.filter (fun f => f.flightOut ≠ b.flightOut) } := by
  rw [greedyStep] at h
  cases hp : pickBest (scoreKey st.lastFlight (lastBE st.lastFlight ws))
      (eligiblePool st.pool (lastBE st.lastFlight ws) we) with
  | none => rw [hp] at h; exact absurd h (by simp)
  | some b =>
    rw [hp] at h
    injection h with h
    exact ⟨b, rfl, h.symm⟩

theorem filter_length_lt {p : SFlight → Bool} {l : List SFlight} {b : SFlight}
    (hb : b ∈ l) (hp : p b = false) : (l.filter p).length < l.length := by
  induction l with
  | nil => simp at hb
  | cons f rest ih =>
    rcases List.mem_cons.mp hb with rfl | hb
    · rw [List.filter_cons, hp]
      simp only [List.length_cons]
      exact Nat.lt_succ_of_le (List.length_filter_le _ _)
    · rw [List.filter_cons]
      cases p f
      · simp only [List.length_cons]
        exact Nat.lt_succ_of_lt (ih hb)
      · simp only [List.length_cons]
        exact Nat.succ_lt_succ (ih hb)

theorem greedyStep_pool_lt {ws we : Int} {st st' : EngState}
    (h : greedyStep ws we st = some st') :
    st'.pool.length < st.pool.length := by
  obtain ⟨b, hp, rfl⟩ := greedyStep_eq_some h
  have hbmem : b ∈ st.pool :=
    (mem_eligiblePool.mp (pickBest_mem _ hp)).1
  exact filter_length_lt hbmem (by simp)

theorem greedyRun_preserve {ws we : Int} (P : EngState → Prop)
    (hstep : ∀ st st', greedyStep ws we st = some st' → P st → P st') :
    ∀ (n : Nat) (st : EngState), P st → P (greedyRun ws we n st) := by
  intro n
  induction n with
  | zero => intro st h; exact h
  | succ n ih =>
    intro st h
    rw [greedyRun]
    cases hs : greedyStep ws we st with
    | none => exact h
    | some st' => exact ih st' (hstep st st' hs h)

theorem greedyRun_schedule_mono {ws we : Int} {f : SFlight} (n : Nat)
    (st : EngState) (h : f ∈ st.schedule) :
    f ∈ (greedyRun ws we n st).schedule := by
  refine greedyRun_preserve (fun s => f ∈ s.schedule) ?_ n st h
  intro st st' hs hf
  obtain ⟨b, _, rfl⟩ := greedyStep_eq_some hs
  simp only [List.mem_append]
  exact Or.inl hf

theorem greedyRun_fuel_succ {ws we : Int} :
    ∀ (n : Nat) (st : EngState), st.pool.length ≤ n →
      greedyRun ws we (n + 1) st = greedyRun ws we n st := by
  intro n
  induction n with
  | zero =>
    intro st h
    have hpool : st.pool = [] := List.length_eq_zero.mp (Nat.le_zero.mp h)
    have hstep : greedyStep ws we st = none := by
      rw [greedyStep, hpool]
      simp [eligiblePool, pickBest]
    have hlhs : greedyRun ws we (0 + 1) st =
        match greedyStep ws we st with
        | none => st
        | some st' => greedyRun ws we 0 st' := rfl
    rw [hlhs, hstep]
    rfl
  | succ n ih =>
    intro st h
    have hlhs : greedyRun ws we (n + 1 + 1) st =
        match greedyStep ws we st with
        | none => st
        | some st' => greedyRun ws we (n + 1) st' := rfl
    have hrhs : greedyRun ws we (n + 1) st =
        match greedyStep ws we st with
        | none => st
        | some st' => greedyRun ws we n st' := rfl
    rw [hlhs, hrhs]
    cases hs : greedyStep ws we st with
    | none => rfl
    | some st' =>
      exact ih st' (Nat.le_of_lt_succ (Nat.lt_of_lt_of_le (greedyStep_pool_lt hs) h))

/-! ### Membership lemmas for the pipeline stages -/

theorem mem_sortByBoardStart {l : List SFlight} {a : SFlight} :
    a ∈ sortByBoardStart l ↔ a ∈ l :=
  List.mem_insertionSort _

theorem getLast?_mem {l : List SFlight} {a : SFlight}
    (h : l.getLast? = some a) : a ∈ l := by
  have h' : a ∈ l.getLast? := by rw [Option.mem_def]; exact h
  obtain ⟨hne, rfl⟩ := List.mem_getLast?_eq_getLast h'
  exact List.getLast_mem hne

theorem mem_candidateFlights {cat : List SFlight} {nameT : String} {f : SFlight} :
    f ∈ candidateFlights cat nameT ↔
      f ∈ cat ∧ (strip f.observers = "" ∨ containsCI f.observers nameT = true) := by
  simp [candidateFlights, List.mem_filter]

theorem mem_preAssigned {cands : List SFlight} {nameT : String} {ws we : Int}
    {f : SFlight} :
    f ∈ preAssigned cands nameT ws we ↔
      f ∈ cands ∧ containsCI f.observers nameT = true ∧
        ws ≤ f.boardStart ∧ f.boardEnd ≤ we := by
  simp [preAssigned, List.mem_filter, and_assoc]

theorem mem_availablePool {cands pre : List SFlight} {f : SFlight}
    (h : f ∈ availablePool cands pre) : f ∈ cands :=
  (List.mem_filter.mp h).1

/-! ### Structural equalities of the pipeline (definitional) -/

theorem initState_schedule (cat : List SFlight) (nameT : String) (ws we : Int) :
    (initState cat nameT ws we).schedule =
      sortByBoardStart
        (preAssigned (candidateFlights cat nameT) nameT ws we) := rfl

theorem initState_lastFlight (cat : List SFlight) (nameT : String) (ws we : Int) :
    (initState cat nameT ws we).lastFlight =
      (sortByBoardStart
        (preAssigned (candidateFlights cat nameT) nameT ws we)).getLast? := rfl

theorem initState_pool (cat : List SFlight) (nameT : String) (ws we : Int) :
    (initState cat nameT ws we).pool =
      availablePool (candidateFlights cat nameT)
        (preAssigned (candidateFlights cat nameT) nameT ws we) := rfl

theorem suggestSchedule_def (cat : List SFlight) (name : String) (ws we : Int) :
    suggestSchedule cat name ws we =
      sortByBoardStart
        (greedyRun ws we (initState cat (strip name) ws we).pool.length
          (initState cat (strip name) ws we)).schedule := rfl

/-! ### C10 — termination of the greedy loop -/

/-- C10: the greedy assignment loop terminates for every finite catalog
and window: each iteration either makes no assignment (ending the loop)
or strictly shrinks the candidate pool, so fuel equal to the initial
pool size — exactly what `suggestSchedule` supplies — already reaches
the loop's fixed point, and any additional fuel changes nothing. -/
theorem C10_greedy_loop_terminates (ws we : Int) (st : EngState) (extra : Nat) :
    greedyRun ws we (st.pool.length + extra) st =
      greedyRun ws we st.pool.length st := by
  induction extra with
  | zero => rfl
  | succ k ih =>
    have hstep : st.pool.length + (k + 1) = (st.pool.length + k) + 1 := rfl
    rw [hstep, greedyRun_fuel_succ (st.pool.length + k) st (Nat.le_add_right _ _), ih]

/-! ### C9 — determinism of the suggestion engine -/

/-- C9: the suggestion engine is deterministic — two runs on an
identical catalog (same rows in the same order), identical observer name
and identical window produce exactly the same schedule.  The engine is a
pure function of its inputs; the source draws no randomness. -/
theorem C9_deterministic (cat₁ cat₂ : List Flight) (n₁ n₂ : String)
    (ws₁ we₁ ws₂ we₂ : Int) (hc : cat₁ = cat₂) (hn : n₁ = n₂)
    (hs : ws₁ = ws₂) (he : we₁ = we₂) :
    suggestFromCatalog cat₁ n₁ ws₁ we₁ = suggestFromCatalog cat₂ n₂ ws₂ we₂ := by
  subst hc hn hs he
  rfl

/-- Witness for C9 at a concrete catalog, name and window. -/
theorem C9_deterministic_witness :
    suggestFromCatalog
        [⟨"UA100", "A5", "SFO", "Yes", "yes", "", some 540, some 560, some 580⟩]
        "Alice" 480 1020 =
      suggestFromCatalog
        [⟨"UA100", "A5", "SFO", "Yes", "yes", "", some 540, some 560, some 580⟩]
        "Alice" 480 1020 :=
  C9_deterministic _ _ _ _ _ _ _ _ rfl rfl rfl rfl

/-! ### C3 — window containment -/

/-- C3 (amended): provided every scheduling-eligible flight has
`boardStart ≤ boardEnd`, every flight of a produced schedule satisfies
boarding-level window containment: `window.start ≤ boardStart` and
`boardEnd ≤ window.end`.  (Busy-level containment fails; see the
counterexample.) -/
theorem C3_window_containment (cat : List SFlight) (name : String) (ws we : Int)
    (h1 : ∀ f ∈ cat, f.boardStart ≤ f.boardEnd) :
    ∀ f ∈ suggestSchedule cat name ws we, ws ≤ f.boardStart ∧ f.boardEnd ≤ we := by
  intro f hf
  rw [suggestSchedule_def] at hf
  rw [mem_sortByBoardStart] at hf
  have hrun := @greedyRun_preserve ws we
    (fun st => (∀ g ∈ st.schedule, ws ≤ g.boardStart ∧ g.boardEnd ≤ we) ∧
      ws ≤ lastBE st.lastFlight ws ∧ (∀ g ∈ st.pool, g.boardStart ≤ g.boardEnd))
    ?_ (initState cat (strip name) ws we).pool.length
    (initState cat (strip name) ws we) ?_
  · exact hrun.1 f hf
  · intro st st' hs hP
    obtain ⟨b, hpb, rfl⟩ := greedyStep_eq_some hs
    have hbelig := mem_eligiblePool.mp (pickBest_mem _ hpb)
    obtain ⟨hbpool, hb1, hb2⟩ := hbelig
    refine ⟨?_, ?_, ?_⟩
    · intro g hg
      rcases List.mem_append.mp hg with hg | hg
      · exact hP.1 g hg
      · have hg' : g = b := by simpa using hg
        subst hg'
        exact ⟨le_trans hP.2.1 hb1, hb2⟩
    · show ws ≤ busyEnd b
      have hwf := hP.2.2 b hbpool
      have hws := le_trans hP.2.1 hb1
      simp only [busyEnd]
      omega
    · intro g hg
      exact hP.2.2 g ((List.mem_filter.mp hg).1)
  · refine ⟨?_, ?_, ?_⟩
    · intro g hg
      rw [initState_schedule, mem_sortByBoardStart, mem_preAssigned] at hg
      exact ⟨hg.2.2.1, hg.2.2.2⟩
    · rw [initState_lastFlight]
      cases hl : (sortByBoardStart
          (preAssigned (candidateFlights cat (strip name)) (strip name) ws we)).getLast? with
      | none => exact le_refl ws
      | some lf =>
        have hlf := mem_sortByBoardStart.mp (getLast?_mem hl)
        rw [mem_preAssigned] at hlf
        have hwf := h1 lf (mem_candidateFlights.mp hlf.1).1
        show ws ≤ busyEnd lf
        have := hlf.2.2.1
        simp only [busyEnd]
        omega
    · intro g hg
      rw [initState_pool] at hg
      exact h1 g (mem_candidateFlights.mp (mem_availablePool hg)).1

/-- Witness for C3 at a concrete catalog and window. -/
theorem C3_window_containment_witness :
    (∀ f ∈ ([⟨"DL200", "B7", "JFK", "", false, 600, 640⟩] : List SFlight),
        f.boardStart ≤ f.boardEnd) ∧
      ∀ f ∈ suggestSchedule [⟨"DL200", "B7", "JFK", "", false, 600, 640⟩]
          "Alice" 540 1020, 540 ≤ f.boardStart ∧ f.boardEnd ≤ 1020 :=
  ⟨by decide, C3_window_containment _ _ _ _ (by decide)⟩

/-- Counterexample for C3 as stated: with a single unassigned flight
boarding exactly over the whole window, the flight is scheduled but its
busy interval sticks out of the window on both sides
(`busyStart = window.start − 10`, `busyEnd = window.end + 10`). -/
theorem C3_counterexample :
    ¬ (∀ f ∈ suggestSchedule [⟨"AA300", "C2", "ORD", "", false, 0, 60⟩]
        "Alice" 0 60, 0 ≤ busyStart f ∧ busyEnd f ≤ 60) := by
  decide

/-! ### C1 — separation of scheduled flights -/

/-- C1 (amended): provided every scheduling-eligible flight has
`boardStart ≤ boardEnd` and the observer has no pre-assigned flights,
any two flights at distinct positions of a produced schedule have
boarding intervals separated by at least the 10-minute buffer:
`a.boardEnd + 10 ≤ b.boardStart` or `b.boardEnd + 10 ≤ a.boardStart`.
Busy intervals may still overlap by up to 10 minutes, because the pool
filter compares the candidate's boarding start (not its busy start)
against the previous busy end. -/
theorem C1_separation (cat : List SFlight) (name : String) (ws we : Int)
    (h1 : ∀ f ∈ cat, f.boardStart ≤ f.boardEnd)
    (h2 : preAssigned (candidateFlights cat (strip name)) (strip name) ws we = []) :
    (suggestSchedule cat name ws we).Pairwise
      (fun a b => a.boardEnd + 10 ≤ b.boardStart ∨ b.boardEnd + 10 ≤ a.boardStart) := by
  rw [suggestSchedule_def]
  have hsym : ∀ {a b : SFlight},
      (a.boardEnd + 10 ≤ b.boardStart ∨ b.boardEnd + 10 ≤ a.boardStart) →
      (b.boardEnd + 10 ≤ a.boardStart ∨ a.boardEnd + 10 ≤ b.boardStart) := by
    intro a b h
    exact h.symm
  refine ((List.perm_insertionSort _ _).pairwise_iff hsym).mpr ?_
  have hrun := @greedyRun_preserve ws we
    (fun st =>
      st.schedule.Pairwise
        (fun a b => a.boardEnd + 10 ≤ b.boardStart ∨ b.boardEnd + 10 ≤ a.boardStart) ∧
      (∀ lf, st.lastFlight = some lf → ∀ g ∈ st.schedule, g.boardEnd ≤ lf.boardEnd) ∧
      (st.lastFlight = none → st.schedule = []) ∧
      (∀ g ∈ st.pool, g.boardStart ≤ g.boardEnd))
    ?_ (initState cat (strip name) ws we).pool.length
    (initState cat (strip name) ws we) ?_
  · exact hrun.1
  · intro st st' hs hP
    obtain ⟨b, hpb, rfl⟩ := greedyStep_eq_some hs
    obtain ⟨hbpool, hb1, hb2⟩ := mem_eligiblePool.mp (pickBest_mem _ hpb)
    have hbwf := hP.2.2.2 b hbpool
    cases hlast : st.lastFlight with
    | none =>
      have hempty := hP.2.2.1 hlast
      refine ⟨?_, ?_, ?_, ?_⟩
      · rw [hempty]
        simp
      · intro lf hlf g hg
        injection hlf with hlf
        subst hlf
        rw [hempty] at hg
        have hg' : g = b := by simpa using hg
        subst hg'
        exact le_refl _
      · intro hnone
        exact absurd hnone (by simp)
      · intro g hg
        exact hP.2.2.2 g ((List.mem_filter.mp hg).1)
    | some lf0 =>
      rw [hlast] at hb1
      have hb1' : lf0.boardEnd + 10 ≤ b.boardStart := by
        simpa [lastBE, busyEnd] using hb1
      have hbnd := hP.2.1 lf0 hlast
      refine ⟨?_, ?_, ?_, ?_⟩
      · rw [List.pairwise_append]
        refine ⟨hP.1, by simp, ?_⟩
        intro g hg x hx
        have hx' : x = b := by simpa using hx
        subst hx'
        have := hbnd g hg
        exact Or.inl (by omega)
      · intro lf hlf g hg
        injection hlf with hlf
        subst hlf
        rcases List.mem_append.mp hg with hg | hg
        · have := hbnd g hg
          omega
        · have hg' : g = b := by simpa using hg
          subst hg'
          exact le_refl _
      · intro hnone
        exact absurd hnone (by simp)
      · intro g hg
        exact hP.2.2.2 g ((List.mem_filter.mp hg).1)
  · refine ⟨?_, ?_, ?_, ?_⟩
    · rw [initState_schedule, h2]
      simp [sortByBoardStart]
    · intro lf hlf g hg
      rw [initState_schedule, h2] at hg
      simp [sortByBoardStart, List.insertionSort] at hg
    · intro _
      rw [initState_schedule, h2]
      rfl
    · intro g hg
      rw [initState_pool] at hg
      exact h1 g (mem_candidateFlights.mp (mem_availablePool hg)).1

/-- Witness for C1 (amended) at a concrete catalog: two well-separated
unassigned flights, no pre-assignments. -/
theorem C1_separation_witness :
    (∀ f ∈ ([⟨"WN10", "C1", "PHX", "", false, 100, 120⟩,
             ⟨"WN11", "C2", "PHX", "", false, 200, 220⟩] : List SFlight),
        f.boardStart ≤ f.boardEnd) ∧
    preAssigned
        (candidateFlights
          [⟨"WN10", "C1", "PHX", "", false, 100, 120⟩,
           ⟨"WN11", "C2", "PHX", "", false, 200, 220⟩] (strip "Bob"))
        (strip "Bob") 0 1000 = [] ∧
    (suggestSchedule
        [⟨"WN10", "C1", "PHX", "", false, 100, 120⟩,
         ⟨"WN11", "C2", "PHX", "", false, 200, 220⟩] "Bob" 0 1000).Pairwise
      (fun a b => a.boardEnd + 10 ≤ b.boardStart ∨ b.boardEnd + 10 ≤ a.boardStart) :=
  ⟨by decide, by decide, C1_separation _ _ _ _ (by decide) (by decide)⟩

/-- Counterexample for C1 as stated: with two unassigned flights boarding
at 0–20 and 30–50 in a 0–100 window, the engine schedules both (the pool
filter only requires boarding start `30 ≥` previous busy end `30`), yet
their busy intervals `[-10, 30]` and `[20, 60]` overlap. -/
theorem C1_counterexample :
    ¬ (∀ a ∈ suggestSchedule
          [⟨"UA1", "A1", "SFO", "", false, 0, 20⟩,
           ⟨"UA2", "A2", "DEN", "", false, 30, 50⟩] "Alice" 0 100,
        ∀ b ∈ suggestSchedule
          [⟨"UA1", "A1", "SFO", "", false, 0, 20⟩,
           ⟨"UA2", "A2", "DEN", "", false, 30, 50⟩] "Alice" 0 100,
        a ≠ b → busyEnd a ≤ busyStart b ∨ busyEnd b ≤ busyStart a) := by
  decide

/-! ### C2 — greedy selection rule -/

/-- C2 (amended): whenever an iteration of the greedy loop makes an
assignment, the assigned flight is drawn from the eligible pool, its
score triple `(downtime, importance_score, gate_score)` — downtime
compared first, then importance, then gate score — is lexicographically
minimal over the eligible pool, and it is the first pool element (in
catalog order) attaining that minimum. -/
theorem C2_selection (ws we : Int) (st st' : EngState)
    (h : greedyStep ws we st = some st') :
    ∃ b, st'.schedule = st.schedule ++ [b] ∧
      b ∈ eligiblePool st.pool (lastBE st.lastFlight ws) we ∧
      (∀ g ∈ eligiblePool st.pool (lastBE st.lastFlight ws) we,
        scoreLT (scoreKey st.lastFlight (lastBE st.lastFlight ws) g)
          (scoreKey st.lastFlight (lastBE st.lastFlight ws) b) = false) ∧
      ∃ l1 l2, eligiblePool st.pool (lastBE st.lastFlight ws) we = l1 ++ b :: l2 ∧
        ∀ g ∈ l1, scoreLT (scoreKey st.lastFlight (lastBE st.lastFlight ws) b)
          (scoreKey st.lastFlight (lastBE st.lastFlight ws) g) = true := by
  obtain ⟨b, hpb, rfl⟩ := greedyStep_eq_some h
  exact ⟨b, rfl, pickBest_mem _ hpb, pickBest_min _ hpb, pickBest_first _ hpb⟩

/-- Witness for C2 (amended) at a concrete single-candidate state. -/
theorem C2_selection_witness :
    greedyStep 0 100 ⟨[], none, [⟨"UA9", "A1", "SEA", "", false, 30, 50⟩]⟩ =
        some ⟨[⟨"UA9", "A1", "SEA", "", false, 30, 50⟩],
          some ⟨"UA9", "A1", "SEA", "", false, 30, 50⟩, []⟩ ∧
      ∃ b, (⟨[⟨"UA9", "A1", "SEA", "", false, 30, 50⟩],
              some ⟨"UA9", "A1", "SEA", "", false, 30, 50⟩, []⟩ : EngState).schedule =
          (⟨[], none, [⟨"UA9", "A1", "SEA", "", false, 30, 50⟩]⟩ : EngState).schedule ++ [b] ∧
        b ∈ eligiblePool [⟨"UA9", "A1", "SEA", "", false, 30, 50⟩] (lastBE none 0) 100 ∧
        (∀ g ∈ eligiblePool [⟨"UA9", "A1", "SEA", "", false, 30, 50⟩] (lastBE none 0) 100,
          scoreLT (scoreKey none (lastBE none 0) g)
            (scoreKey none (lastBE none 0) b) = false) ∧
        ∃ l1 l2,
          eligiblePool [⟨"UA9", "A1", "SEA", "", false, 30, 50⟩] (lastBE none 0) 100 =
            l1 ++ b :: l2 ∧
          ∀ g ∈ l1, scoreLT (scoreKey none (lastBE none 0) b)
            (scoreKey none (lastBE none 0) g) = true :=
  ⟨by decide, C2_selection 0 100 _ _ (by decide)⟩

/-- Counterexample for C2 as stated: after an important flight boarding
0–10 is taken, the eligible pool holds an important flight (importance
score 0, boarding 30–40) and an unimportant one (importance score 1,
boarding 20–30); the engine selects the unimportant one because its
downtime is smaller — the sort key is `(downtime, importance_score,
gate_score)` with downtime first, not importance first. -/
theorem C2_counterexample :
    greedyRun 0 200 1
        (initState [⟨"UA1", "A1", "SFO", "", true, 0, 10⟩,
                    ⟨"UA3", "A1", "LAS", "", false, 20, 30⟩,
                    ⟨"UA2", "A1", "DEN", "", true, 30, 40⟩] "Alice" 0 200) =
      ⟨[⟨"UA1", "A1", "SFO", "", true, 0, 10⟩],
        some ⟨"UA1", "A1", "SFO", "", true, 0, 10⟩,
        [⟨"UA3", "A1", "LAS", "", false, 20, 30⟩,
         ⟨"UA2", "A1", "DEN", "", true, 30, 40⟩]⟩ ∧
    greedyStep 0 200
        ⟨[⟨"UA1", "A1", "SFO", "", true, 0, 10⟩],
          some ⟨"UA1", "A1", "SFO", "", true, 0, 10⟩,
          [⟨"UA3", "A1", "LAS", "", false, 20, 30⟩,
           ⟨"UA2", "A1", "DEN", "", true, 30, 40⟩]⟩ =
      some ⟨[⟨"UA1", "A1", "SFO", "", true, 0, 10⟩,
             ⟨"UA3", "A1", "LAS", "", false, 20, 30⟩],
        some ⟨"UA3", "A1", "LAS", "", false, 20, 30⟩,
        [⟨"UA2", "A1", "DEN", "", true, 30, 40⟩]⟩ ∧
    ⟨"UA2", "A1", "DEN", "", true, 30, 40⟩ ∈
      eligiblePool
        [⟨"UA3", "A1", "LAS", "", false, 20, 30⟩,
         ⟨"UA2", "A1", "DEN", "", true, 30, 40⟩]
        (lastBE (some ⟨"UA1", "A1", "SFO", "", true, 0, 10⟩) 0) 200 ∧
    importance_score ⟨"UA2", "A1", "DEN", "", true, 30, 40⟩ = 0 ∧
    importance_score ⟨"UA3", "A1", "LAS", "", false, 20, 30⟩ = 1 := by
  decide

/-! ### C4 — pre-assignment preservation -/

/-- C4: a candidate flight that already bears the requesting observer's
name (the case-insensitive containment test of the source succeeds) and
whose busy interval lies fully within the requested window is kept in
the output schedule unconditionally, and the pre-assigned schedule seeds
the last-flight cursor (the initial `lastFlight` is populated). -/
theorem C4_pre_assigned_kept (cat : List SFlight) (name : String) (ws we : Int)
    (f : SFlight) (hmem : f ∈ cat)
    (hname : containsCI f.observers (strip name) = true)
    (hs : ws ≤ busyStart f) (he : busyEnd f ≤ we) :
    f ∈ suggestSchedule cat name ws we ∧
      (initState cat (strip name) ws we).lastFlight.isSome = true := by
  have hbs : ws ≤ f.boardStart := by
    simp only [busyStart] at hs
    omega
  have hbe : f.boardEnd ≤ we := by
    simp only [busyEnd] at he
    omega
  have hcand : f ∈ candidateFlights cat (strip name) :=
    mem_candidateFlights.mpr ⟨hmem, Or.inr hname⟩
  have hpre : f ∈ preAssigned (candidateFlights cat (strip name)) (strip name) ws we :=
    mem_preAssigned.mpr ⟨hcand, hname, hbs, hbe⟩
  have hsched0 : f ∈ (initState cat (strip name) ws we).schedule := by
    rw [initState_schedule, mem_sortByBoardStart]
    exact hpre
  constructor
  · rw [suggestSchedule_def, mem_sortByBoardStart]
    exact greedyRun_schedule_mono _ _ hsched0
  · rw [initState_lastFlight]
    have hne : sortByBoardStart
        (preAssigned (candidateFlights cat (strip name)) (strip name) ws we) ≠ [] := by
      intro hnil
      rw [initState_schedule, hnil] at hsched0
      simp at hsched0
    simpa [List.getLast?_isSome] using hne

/-- Witness for C4: a flight carrying the observer's name, busy interval
inside the window, appears in the suggestion and seeds the cursor. -/
theorem C4_pre_assigned_kept_witness :
    (⟨"AS50", "D4", "SEA", "Alice", false, 600, 630⟩ : SFlight) ∈
        ([⟨"AS50", "D4", "SEA", "Alice", false, 600, 630⟩] : List SFlight) ∧
    containsCI "Alice" (strip "Alice") = true ∧
    (0 : Int) ≤ busyStart ⟨"AS50", "D4", "SEA", "Alice", false, 600, 630⟩ ∧
    busyEnd ⟨"AS50", "D4", "SEA", "Alice", false, 600, 630⟩ ≤ (1000 : Int) ∧
    (⟨"AS50", "D4", "SEA", "Alice", false, 600, 630⟩ : SFlight) ∈
      suggestSchedule [⟨"AS50", "D4", "SEA", "Alice", false, 600, 630⟩]
        "Alice" 0 1000 ∧
    (initState [⟨"AS50", "D4", "SEA", "Alice", false, 600, 630⟩]
        (strip "Alice") 0 1000).lastFlight.isSome = true :=
  ⟨by decide, by decide, by decide, by decide,
    (C4_pre_assigned_kept [⟨"AS50", "D4", "SEA", "Alice", false, 600, 630⟩]
      "Alice" 0 1000 ⟨"AS50", "D4", "SEA", "Alice", false, 600, 630⟩
      (by decide) (by decide) (by decide) (by decide)).1,
    (C4_pre_assigned_kept [⟨"AS50", "D4", "SEA", "Alice", false, 600, 630⟩]
      "Alice" 0 1000 ⟨"AS50", "D4", "SEA", "Alice", false, 600, 630⟩
      (by decide) (by decide) (by decide) (by decide)).2⟩

/-! ### C5 — equipment and parseability filter -/

theorem suggestSchedule_subset (cat : List SFlight) (name : String) (ws we : Int) :
    ∀ f ∈ suggestSchedule cat name ws we, f ∈ cat := by
  intro f hf
  rw [suggestSchedule_def, mem_sortByBoardStart] at hf
  have hrun := @greedyRun_preserve ws we
    (fun st => (∀ g ∈ st.schedule, g ∈ cat) ∧ (∀ g ∈ st.pool, g ∈ cat))
    ?_ (initState cat (strip name) ws we).pool.length
    (initState cat (strip name) ws we) ?_
  · exact hrun.1 f hf
  · intro st st' hs hP
    obtain ⟨b, hpb, rfl⟩ := greedyStep_eq_some hs
    have hbpool := (mem_eligiblePool.mp (pickBest_mem _ hpb)).1
    refine ⟨?_, ?_⟩
    · intro g hg
      rcases List.mem_append.mp hg with hg | hg
      · exact hP.1 g hg
      · have hg' : g = b := by simpa using hg
        rw [hg']
        exact hP.2 b hbpool
    · intro g hg
      exact hP.2 g ((List.mem_filter.mp hg).1)
  · refine ⟨?_, ?_⟩
    · intro g hg
      rw [initState_schedule, mem_sortByBoardStart, mem_preAssigned] at hg
      exact (mem_candidateFlights.mp hg.1).1
    · intro g hg
      rw [initState_pool] at hg
      exact (mem_candidateFlights.mp (mem_availablePool hg)).1

theorem toSched_eq_some {rf : Flight} {f : SFlight} (h : toSched rf = some f) :
    rf.hasEquipment = "Yes" ∧ rf.boardStart? = some f.boardStart ∧
      rf.boardEnd? = some f.boardEnd := by
  rw [toSched] at h
  by_cases he : rf.hasEquipment = "Yes"
  · rw [if_pos he] at h
    cases hbs : rf.boardStart? with
    | none =>
      rw [hbs] at h
      cases rf.boardEnd? <;> exact absurd h (by simp)
    | some bs =>
      rw [hbs] at h
      cases hbe : rf.boardEnd? with
      | none =>
        rw [hbe] at h
        exact absurd h (by simp)
      | some be =>
        rw [hbe] at h
        injection h with h
        subst h
        exact ⟨he, rfl, rfl⟩
  · rw [if_neg he] at h
    exact absurd h (by simp)

/-- C5: every flight of a suggested schedule descends from a catalog row
that passed the `all_flights_for_scheduling` filter: its
`Has Equipment` value is exactly `"Yes"` and both boarding times parsed
(are not NaT).  Hence no equipment-less flight and no flight with a
missing or unparseable boarding time is ever scheduled. -/
theorem C5_equipment_filter (cat : List Flight) (name : String) (ws we : Int)
    (f : SFlight) (h : f ∈ suggestFromCatalog cat name ws we) :
    ∃ rf, rf ∈ cat ∧ toSched rf = some f ∧ rf.hasEquipment = "Yes" ∧
      rf.boardStart?.isSome = true ∧ rf.boardEnd?.isSome = true := by
  have hs : f ∈ schedCat cat := suggestSchedule_subset _ _ _ _ f h
  rw [schedCat] at hs
  obtain ⟨rf, hrf, heq⟩ := List.mem_filterMap.mp hs
  obtain ⟨he, hbs, hbe⟩ := toSched_eq_some heq
  exact ⟨rf, hrf, heq, he, by rw [hbs]; rfl, by rw [hbe]; rfl⟩

/-- Witness for C5: a concrete catalog whose single eligible flight is
scheduled; the originating raw row necessarily passed the filter. -/
theorem C5_equipment_filter_witness :
    (⟨"UA1", "A1", "SFO", "", false, 100, 120⟩ : SFlight) ∈
        suggestFromCatalog
          [⟨"UA1", "A1", "SFO", "Yes", "no", "", some 100, some 120, some 130⟩]
          "Alice" 0 1000 ∧
      ∃ rf, rf ∈
          ([⟨"UA1", "A1", "SFO", "Yes", "no", "", some 100, some 120, some 130⟩] :
            List Flight) ∧
        toSched rf = some ⟨"UA1", "A1", "SFO", "", false, 100, 120⟩ ∧
        rf.hasEquipment = "Yes" ∧ rf.boardStart?.isSome = true ∧
        rf.boardEnd?.isSome = true :=
  ⟨by decide,
    C5_equipment_filter
      [⟨"UA1", "A1", "SFO", "Yes", "no", "", some 100, some 120, some 130⟩]
      "Alice" 0 1000 ⟨"UA1", "A1", "SFO", "", false, 100, 120⟩ (by decide)⟩

/-! ### Lemmas about stripping and comma splitting -/

theorem dropWhile_eq_self_of_head {p : Char → Bool} {m : List Char}
    (h : ∀ a, m.head? = some a → p a = false) : m.dropWhile p = m := by
  cases m with
  | nil => rfl
  | cons c t =>
    have hc := h c rfl
    simp [List.dropWhile_cons, hc]

theorem head_dropWhile_false {p : Char → Bool} :
    ∀ {m : List Char} {a : Char}, (m.dropWhile p).head? = some a → p a = false := by
  intro m
  induction m with
  | nil => intro a h; simp at h
  | cons c t ih =>
    intro a h
    by_cases hc : p c = true
    · rw [List.dropWhile_cons, if_pos hc] at h
      exact ih h
    · rw [List.dropWhile_cons, if_neg hc] at h
      injection h with h
      subst h
      simpa using hc

theorem stripChars_sublist (l : List Char) : List.Sublist (stripChars l) l := by
  rw [stripChars]
  have h1 : List.Sublist
      ((l.dropWhile Char.isWhitespace).reverse.dropWhile Char.isWhitespace)
      (l.dropWhile Char.isWhitespace).reverse := List.dropWhile_sublist _
  have h2 := List.reverse_sublist.mpr h1
  rw [List.reverse_reverse] at h2
  exact h2.trans (List.dropWhile_sublist _)

theorem stripChars_head {l : List Char} {a : Char}
    (h : (stripChars l).head? = some a) : a.isWhitespace = false := by
  rw [stripChars] at h
  have hsuf : ((l.dropWhile Char.isWhitespace).reverse.dropWhile Char.isWhitespace)
      <:+ (l.dropWhile Char.isWhitespace).reverse := List.dropWhile_suffix _
  have hpre : ((l.dropWhile Char.isWhitespace).reverse.dropWhile
      Char.isWhitespace).reverse <+: l.dropWhile Char.isWhitespace := by
    have h2 := List.reverse_prefix.mpr hsuf
    rwa [List.reverse_reverse] at h2
  obtain ⟨t, ht⟩ := hpre
  have hhead : (l.dropWhile Char.isWhitespace).head? = some a := by
    rw [← ht]
    cases hu : ((l.dropWhile Char.isWhitespace).reverse.dropWhile
        Char.isWhitespace).reverse with
    | nil => rw [hu] at h; simp at h
    | cons x u =>
      rw [hu] at h
      simpa using h
  exact head_dropWhile_false hhead

theorem stripChars_getLast {l : List Char} {a : Char}
    (h : (stripChars l).getLast? = some a) : a.isWhitespace = false := by
  rw [stripChars, List.getLast?_reverse] at h
  exact head_dropWhile_false h

theorem stripChars_idem (l : List Char) : stripChars (stripChars l) = stripChars l := by
  have hhead : (stripChars l).dropWhile Char.isWhitespace = stripChars l :=
    dropWhile_eq_self_of_head (fun a ha => stripChars_head ha)
  have hlast : (stripChars l).reverse.dropWhile Char.isWhitespace =
      (stripChars l).reverse := by
    refine dropWhile_eq_self_of_head ?_
    intro a ha
    rw [List.head?_reverse] at ha
    exact stripChars_getLast ha
  rw [stripChars, hhead, hlast, List.reverse_reverse]

theorem stripChars_cons_space (h : List Char) :
    stripChars (' ' :: h) = stripChars h := by
  have hws : (' ' : Char).isWhitespace = true := by decide
  rw [stripChars, stripChars, List.dropWhile_cons, if_pos hws]

theorem splitComma_ne_nil (l : List Char) : splitComma l ≠ [] := by
  cases l with
  | nil => simp [splitComma]
  | cons c rest =>
    rw [splitComma]
    cases splitComma rest with
    | nil => simp
    | cons g gs =>
      by_cases hc : c = ',' <;> simp [hc]

theorem splitComma_no_comma {l : List Char} :
    ∀ g ∈ splitComma l, ',' ∉ g := by
  induction l with
  | nil =>
    intro g hg
    simp [splitComma] at hg
    simp [hg]
  | cons c rest ih =>
    intro g hg
    rw [splitComma] at hg
    cases hr : splitComma rest with
    | nil => exact absurd hr (splitComma_ne_nil rest)
    | cons g0 gs0 =>
      rw [hr] at hg
      by_cases hc : c = ','
      · simp only [hc, if_true] at hg
        rcases List.mem_cons.mp hg with rfl | hg
        · simp
        · exact ih g (hr ▸ hg)
      · simp only [hc, if_false] at hg
        rcases List.mem_cons.mp hg with rfl | hg
        · intro hmem
          rcases List.mem_cons.mp hmem with hx | hx
          · exact hc hx.symm
          · exact ih g0 (hr ▸ List.mem_cons_self _ _) hx
        · exact ih g (hr ▸ List.mem_cons.mpr (Or.inr hg))

theorem splitComma_append_comma {g : List Char} (hg : ',' ∉ g) (r : List Char) :
    splitComma (g ++ ',' :: r) = g :: splitComma r := by
  induction g with
  | nil =>
    rw [List.nil_append, splitComma]
    cases hr : splitComma r with
    | nil => exact absurd hr (splitComma_ne_nil r)
    | cons g0 gs0 => simp [hr]
  | cons c g' ih =>
    have hc : c ≠ ',' := fun h => hg (h ▸ List.mem_cons_self _ _)
    have hg' : ',' ∉ g' := fun h => hg (List.mem_cons.mpr (Or.inr h))
    rw [List.cons_append, splitComma, ih hg']
    simp [hc]

theorem splitComma_of_no_comma {g : List Char} (hg : ',' ∉ g) :
    splitComma g = [g] := by
  induction g with
  | nil => rfl
  | cons c g' ih =>
    have hc : c ≠ ',' := fun h => hg (h ▸ List.mem_cons_self _ _)
    have hg' : ',' ∉ g' := fun h => hg (List.mem_cons.mpr (Or.inr h))
    rw [splitComma, ih hg']
    simp [hc]

/-- Well-formedness of one stored observer name: nonempty, already
stripped, and comma-free (so that joining and re-splitting recovers it). -/
def GoodName (g : List Char) : Prop :=
  g ≠ [] ∧ stripChars g = g ∧ ',' ∉ g

theorem parseObs_entries_good (cell : List Char) :
    ∀ g ∈ parseObs cell, GoodName g := by
  intro g hg
  rw [parseObs] at hg
  have hne : g ≠ [] := by
    have := (List.mem_filter.mp hg).2
    simpa using this
  have hmap := (List.mem_filter.mp hg).1
  obtain ⟨chunk, hchunk, rfl⟩ := List.mem_map.mp hmap
  refine ⟨hne, stripChars_idem chunk, ?_⟩
  intro hmem
  exact splitComma_no_comma chunk hchunk
    ((stripChars_sublist chunk).subset hmem)

theorem parseObs_space_cons (m : List Char) :
    parseObs (' ' :: m) = parseObs m := by
  rw [parseObs, parseObs, splitComma]
  cases hr : splitComma m with
  | nil => exact absurd hr (splitComma_ne_nil m)
  | cons g0 gs0 =>
    show ((((' ' :: g0) :: gs0).map stripChars).filter (· ≠ [])) =
      (((g0 :: gs0).map stripChars).filter (· ≠ []))
    simp [stripChars_cons_space]

theorem parseObs_joinObs :
    ∀ gs : List (List Char), (∀ g ∈ gs, GoodName g) →
      parseObs (joinObs gs) = gs := by
  intro gs
  induction gs with
  | nil => intro _; rfl
  | cons g rest ih =>
    intro hgood
    obtain ⟨hne, hstrip, hnc⟩ := hgood g (List.mem_cons_self _ _)
    cases rest with
    | nil =>
      show parseObs g = [g]
      rw [parseObs, splitComma_of_no_comma hnc]
      simp [hstrip, hne]
    | cons g2 rest2 =>
      have hjoin : joinObs (g :: g2 :: rest2) =
          g ++ ',' :: ' ' :: joinObs (g2 :: rest2) := rfl
      rw [hjoin, parseObs, splitComma_append_comma hnc]
      have hrest := ih (fun x hx => hgood x (List.mem_cons.mpr (Or.inr hx)))
      have hsplit : ((splitComma (' ' :: joinObs (g2 :: rest2))).map
            stripChars).filter (· ≠ []) = g2 :: rest2 := by
        have hx : parseObs (' ' :: joinObs (g2 :: rest2)) = g2 :: rest2 := by
          rw [parseObs_space_cons]
          exact hrest
        rw [parseObs] at hx
        exact hx
      rw [List.map_cons, hstrip, List.filter_cons]
      have hcond : (decide (g ≠ []) = true) := by simpa using hne
      rw [if_pos hcond, hsplit]

/-! ### Behaviour of one sign-up attempt on a cell -/

theorem signUpObservers_mem {name cell : List Char}
    (h : stripChars name ∈ parseObs cell) :
    signUpObservers name cell = cell := by
  rw [signUpObservers, signUpCell]
  simp [h]

theorem signUpObservers_not_mem {name cell : List Char}
    (h1 : stripChars name ≠ []) (h2 : ',' ∉ stripChars name)
    (h : stripChars name ∉ parseObs cell) :
    parseObs (signUpObservers name cell) = parseObs cell ++ [stripChars name] := by
  rw [signUpObservers, signUpCell]
  simp only [h, if_false, Option.getD_some]
  refine parseObs_joinObs _ ?_
  intro g hg
  rcases List.mem_append.mp hg with hg | hg
  · exact parseObs_entries_good cell g hg
  · have hg' : g = stripChars name := by simpa using hg
    subst hg'
    exact ⟨h1, stripChars_idem name, h2⟩

theorem signUp_iterate_fix {name c : List Char}
    (h : stripChars name ∈ parseObs c) :
    ∀ k : Nat, (signUpObservers name)^[k] c = c := by
  intro k
  induction k with
  | zero => rfl
  | succ k ih =>
    rw [Function.iterate_succ_apply, signUpObservers_mem h, ih]

/-! ### C6 — idempotence of confirmation -/

/-- C6: signing an observer up for the same flight is idempotent at the
observers-cell level.  If the (stripped) name is already present in the
comma-split observer list the operation leaves the cell unchanged
(apart from the warning); and for any number `n ≥ 1` of repeated
confirmations, the name ends up exactly once in the comma-split list
(assuming the name is nonempty after stripping, contains no comma, and
was not already duplicated in the stored data). -/
theorem C6_signup_idempotent (name cell : List Char)
    (h1 : stripChars name ≠ []) (h2 : ',' ∉ stripChars name)
    (h3 : (parseObs cell).count (stripChars name) ≤ 1) :
    (stripChars name ∈ parseObs cell → signUpObservers name cell = cell) ∧
    ∀ n : Nat, 1 ≤ n →
      (parseObs ((signUpObservers name)^[n] cell)).count (stripChars name) = 1 := by
  refine ⟨fun h => signUpObservers_mem h, ?_⟩
  intro n hn
  obtain ⟨m, rfl⟩ : ∃ m, n = m + 1 := ⟨n - 1, by omega⟩
  by_cases hmem : stripChars name ∈ parseObs cell
  · rw [signUp_iterate_fix hmem]
    have hpos : 0 < (parseObs cell).count (stripChars name) :=
      List.count_pos_iff.mpr hmem
    omega
  · have hzero : (parseObs cell).count (stripChars name) = 0 :=
      List.count_eq_zero.mpr hmem
    have hone : parseObs (signUpObservers name cell) =
        parseObs cell ++ [stripChars name] :=
      signUpObservers_not_mem h1 h2 hmem
    have hmem1 : stripChars name ∈ parseObs (signUpObservers name cell) := by
      rw [hone]
      simp
    rw [Function.iterate_succ_apply]
    have hfix := signUp_iterate_fix hmem1 m
    rw [hfix, hone, List.count_append, hzero]
    simp

/-- Witness for C6: confirming "Alice" twice on a cell holding
"Bob, Carol" yields exactly one "Alice" entry. -/
theorem C6_signup_idempotent_witness :
    stripChars "Alice".data ≠ [] ∧ ',' ∉ stripChars "Alice".data ∧
    (parseObs "Bob, Carol".data).count (stripChars "Alice".data) ≤ 1 ∧
    (parseObs ((signUpObservers "Alice".data)^[2] "Bob, Carol".data)).count
      (stripChars "Alice".data) = 1 :=
  ⟨by decide, by decide, by decide,
    (C6_signup_idempotent "Alice".data "Bob, Carol".data
      (by decide) (by decide) (by decide)).2 2 (by decide)⟩

/-! ### Lemmas about the confirmation scan -/

theorem updStep_fst_congr (sheet : List SheetRow) (name : List Char) :
    ∀ (nums : List (List Char))
      (acc1 acc2 : List (Nat × List Char) × List (List Char)),
      acc1.1 = acc2.1 →
      (nums.foldl (updStep sheet name) acc1).1 =
        (nums.foldl (updStep sheet name) acc2).1 := by
  intro nums
  induction nums with
  | nil => intro acc1 acc2 h; exact h
  | cons num rest ih =>
    intro acc1 acc2 h
    rw [List.foldl_cons, List.foldl_cons]
    apply ih
    cases hl : lookupRow sheet num with
    | none => simp [updStep, hl, h]
    | some ir =>
      obtain ⟨i, row⟩ := ir
      cases hs : signUpCell name row.observers with
      | none => simp [updStep, hl, hs, h]
      | some v => simp [updStep, hl, hs, h]

theorem updStep_snd_mono (sheet : List SheetRow) (name w : List Char) :
    ∀ (nums : List (List Char))
      (acc : List (Nat × List Char) × List (List Char)),
      w ∈ acc.2 → w ∈ (nums.foldl (updStep sheet name) acc).2 := by
  intro nums
  induction nums with
  | nil => intro acc h; exact h
  | cons num rest ih =>
    intro acc h
    rw [List.foldl_cons]
    apply ih
    cases hl : lookupRow sheet num with
    | none =>
      simp only [updStep, hl]
      exact List.mem_append.mpr (Or.inl h)
    | some ir =>
      obtain ⟨i, row⟩ := ir
      cases hs : signUpCell name row.observers with
      | none => simpa [updStep, hl, hs] using h
      | some v => simpa [updStep, hl, hs] using h

/-! ### C7 — a vanished flight is skipped, the rest still commits -/

/-- C7: if a selected flight identifier no longer matches any row of the
live sheet, `sign_up_for_flights` skips it — the identifier is reported
in the not-found warnings — and the remaining selections produce exactly
the same queued updates and the same final sheet as if the vanished
identifier had not been selected at all. -/
theorem C7_missing_flight_skipped (sheet : List SheetRow) (name bad : List Char)
    (pre post : List (List Char)) (h : ∀ r ∈ sheet, r.flightNum ≠ bad) :
    (sign_up_for_flights name (pre ++ bad :: post) sheet).1 =
      (sign_up_for_flights name (pre ++ post) sheet).1 ∧
    bad ∈ (sign_up_for_flights name (pre ++ bad :: post) sheet).2 := by
  have hlook : lookupRow sheet bad = none := by
    rw [lookupRow]
    have hfind : List.findIdx? (fun r => r.flightNum = bad) sheet = none := by
      rw [List.findIdx?_eq_none_iff]
      intro r hr
      simpa using h r hr
    rw [hfind]
  have hstep : updStep sheet name (pre.foldl (updStep sheet name) ([], [])) bad =
      ((pre.foldl (updStep sheet name) ([], [])).1,
        (pre.foldl (updStep sheet name) ([], [])).2 ++ [bad]) := by
    simp [updStep, hlook]
  have hc1 : (collectUpdates sheet name (pre ++ bad :: post)).1 =
      (collectUpdates sheet name (pre ++ post)).1 := by
    rw [collectUpdates, collectUpdates, List.foldl_append, List.foldl_append,
      List.foldl_cons, hstep]
    exact updStep_fst_congr sheet name post _ _ rfl
  have hc2 : bad ∈ (collectUpdates sheet name (pre ++ bad :: post)).2 := by
    rw [collectUpdates, List.foldl_append, List.foldl_cons, hstep]
    exact updStep_snd_mono sheet name bad post _ (by simp)
  constructor
  · show applyUpdates sheet (collectUpdates sheet name (pre ++ bad :: post)).1 =
      applyUpdates sheet (collectUpdates sheet name (pre ++ post)).1
    rw [hc1]
  · exact hc2

/-- Witness for C7: selecting an unknown flight "ZZ9" together with the
known flight "UA1" warns about "ZZ9" and commits the same sheet as
selecting "UA1" alone. -/
theorem C7_missing_flight_skipped_witness :
    (∀ r ∈ ([⟨"UA1".data, "".data⟩] : List SheetRow), r.flightNum ≠ "ZZ9".data) ∧
    (sign_up_for_flights "Bob".data ([] ++ "ZZ9".data :: ["UA1".data])
        [⟨"UA1".data, "".data⟩]).1 =
      (sign_up_for_flights "Bob".data ([] ++ ["UA1".data])
        [⟨"UA1".data, "".data⟩]).1 ∧
    "ZZ9".data ∈ (sign_up_for_flights "Bob".data ([] ++ "ZZ9".data :: ["UA1".data])
        [⟨"UA1".data, "".data⟩]).2 :=
  ⟨by decide,
    (C7_missing_flight_skipped [⟨"UA1".data, "".data⟩] "Bob".data "ZZ9".data
      [] ["UA1".data] (by decide)).1,
    (C7_missing_flight_skipped [⟨"UA1".data, "".data⟩] "Bob".data "ZZ9".data
      [] ["UA1".data] (by decide)).2⟩

/-! ### C8 — malformed time fields never raise; per-field exclusions -/

/-- C8 (amended): time parsing is total — a missing, empty, or
unparseable raw value for any of the three time columns yields an absent
(NaT) value for that field rather than an error
(`pd.to_datetime(..., errors='coerce')` is modelled by the
`Option`-valued parser `p`).  The exclusions are per field: an absent
boarding start excludes the flight from scheduling (`toSched`) and from
the time-ordered upcoming view; an absent boarding end excludes it from
scheduling only; an absent scheduled departure excludes it from
nothing. -/
theorem C8_malformed_time_to_NaT (p : String → Option Int) (now : Int)
    (cat : List Flight) (r : RawRecord) (v : Option String)
    (h : v = none ∨ v = some "" ∨ ∃ s, v = some s ∧ p s = none) :
    parse_and_localize_time p v = none ∧
    (r.boardStartRaw = v →
      (loadFlight p r).boardStart? = none ∧ toSched (loadFlight p r) = none ∧
        loadFlight p r ∉ upcomingView now cat) ∧
    (r.boardEndRaw = v →
      (loadFlight p r).boardEnd? = none ∧ toSched (loadFlight p r) = none) ∧
    (r.etdRaw = v → (loadFlight p r).etd? = none) := by
  have hparse : parse_and_localize_time p v = none := by
    rcases h with rfl | rfl | ⟨s, rfl, hps⟩
    · rfl
    · rfl
    · by_cases hs : s = "" <;> simp [parse_and_localize_time, hs, hps]
  refine ⟨hparse, ?_, ?_, ?_⟩
  · intro hv
    have hbs : (loadFlight p r).boardStart? = none := by
      show parse_and_localize_time p r.boardStartRaw = none
      rw [hv, hparse]
    refine ⟨hbs, ?_, ?_⟩
    · rw [toSched]
      by_cases he : (loadFlight p r).hasEquipment = "Yes"
      · rw [if_pos he, hbs]
      · rw [if_neg he]
    · intro hmem
      rw [upcomingView, List.mem_filter] at hmem
      have hpred := hmem.2
      rw [hbs] at hpred
      simp at hpred
  · intro hv
    have hbe : (loadFlight p r).boardEnd? = none := by
      show parse_and_localize_time p r.boardEndRaw = none
      rw [hv, hparse]
    refine ⟨hbe, ?_⟩
    rw [toSched]
    by_cases he : (loadFlight p r).hasEquipment = "Yes"
    · rw [if_pos he, hbe]
      cases (loadFlight p r).boardStart? <;> rfl
    · rw [if_neg he]
  · intro hv
    show parse_and_localize_time p r.etdRaw = none
    rw [hv, hparse]

/-- Witness for C8 (amended): a raw row whose three time cells all read
"banana", with a parser that only understands "9:25", loads with all
three fields absent and the per-field exclusions hold. -/
theorem C8_malformed_time_to_NaT_witness :
    ((some "banana" : Option String) = none ∨
      (some "banana" : Option String) = some "" ∨
      ∃ s, (some "banana" : Option String) = some s ∧
        (fun t => if t = "9:25" then some (565 : Int) else none) s = none) ∧
    (parse_and_localize_time (fun t => if t = "9:25" then some (565 : Int) else none)
        (some "banana") = none ∧
      ((⟨"UA1", "A1", "SFO", "Yes", "no", "", some "banana", some "banana",
          some "banana"⟩ : RawRecord).boardStartRaw = some "banana" →
        (loadFlight (fun t => if t = "9:25" then some (565 : Int) else none)
            ⟨"UA1", "A1", "SFO", "Yes", "no", "", some "banana", some "banana",
              some "banana"⟩).boardStart? = none ∧
        toSched (loadFlight (fun t => if t = "9:25" then some (565 : Int) else none)
            ⟨"UA1", "A1", "SFO", "Yes", "no", "", some "banana", some "banana",
              some "banana"⟩) = none ∧
        loadFlight (fun t => if t = "9:25" then some (565 : Int) else none)
            ⟨"UA1", "A1", "SFO", "Yes", "no", "", some "banana", some "banana",
              some "banana"⟩ ∉
          upcomingView 0
            [loadFlight (fun t => if t = "9:25" then some (565 : Int) else none)
              ⟨"UA1", "A1", "SFO", "Yes", "no", "", some "banana", some "banana",
                some "banana"⟩]) ∧
      ((⟨"UA1", "A1", "SFO", "Yes", "no", "", some "banana", some "banana",
          some "banana"⟩ : RawRecord).boardEndRaw = some "banana" →
        (loadFlight (fun t => if t = "9:25" then some (565 : Int) else none)
            ⟨"UA1", "A1", "SFO", "Yes", "no", "", some "banana", some "banana",
              some "banana"⟩).boardEnd? = none ∧
        toSched (loadFlight (fun t => if t = "9:25" then some (565 : Int) else none)
            ⟨"UA1", "A1", "SFO", "Yes", "no", "", some "banana", some "banana",
              some "banana"⟩) = none) ∧
      ((⟨"UA1", "A1", "SFO", "Yes", "no", "", some "banana", some "banana",
          some "banana"⟩ : RawRecord).etdRaw = some "banana" →
        (loadFlight (fun t => if t = "9:25" then some (565 : Int) else none)
            ⟨"UA1", "A1", "SFO", "Yes", "no", "", some "banana", some "banana",
              some "banana"⟩).etd? = none)) :=
  ⟨Or.inr (Or.inr ⟨"banana", rfl, by decide⟩),
    C8_malformed_time_to_NaT
      (fun t => if t = "9:25" then some (565 : Int) else none) 0
      [loadFlight (fun t => if t = "9:25" then some (565 : Int) else none)
        ⟨"UA1", "A1", "SFO", "Yes", "no", "", some "banana", some "banana",
          some "banana"⟩]
      ⟨"UA1", "A1", "SFO", "Yes", "no", "", some "banana", some "banana",
        some "banana"⟩
      (some "banana") (Or.inr (Or.inr ⟨"banana", rfl, by decide⟩))⟩

/-- Counterexample for C8 as stated: the claim's exclusion clause fails
for the other two time fields.  With a parser understanding "9:25" and
"9:45", a flight whose only malformed cell is the scheduled departure
("banana") parses to an absent ETD yet still passes the scheduling
filter, is actually placed in a suggested schedule, and appears in the
time-ordered upcoming view; and a flight whose only malformed cell is
the boarding end still appears in the upcoming view (the view drops
rows only on absent boarding start). -/
theorem C8_counterexample :
    (loadFlight
        (fun t => if t = "9:25" then some (565 : Int)
          else if t = "9:45" then some 585 else none)
        ⟨"DL7", "B2", "ATL", "Yes", "no", "", some "9:25", some "9:45",
          some "banana"⟩).etd? = none ∧
    toSched (loadFlight
        (fun t => if t = "9:25" then some (565 : Int)
          else if t = "9:45" then some 585 else none)
        ⟨"DL7", "B2", "ATL", "Yes", "no", "", some "9:25", some "9:45",
          some "banana"⟩) =
      some ⟨"DL7", "B2", "ATL", "", false, 565, 585⟩ ∧
    (⟨"DL7", "B2", "ATL", "", false, 565, 585⟩ : SFlight) ∈
      suggestFromCatalog
        [loadFlight
          (fun t => if t = "9:25" then some (565 : Int)
            else if t = "9:45" then some 585 else none)
          ⟨"DL7", "B2", "ATL", "Yes", "no", "", some "9:25", some "9:45",
            some "banana"⟩]
        "Alice" 0 1000 ∧
    loadFlight
        (fun t => if t = "9:25" then some (565 : Int)
          else if t = "9:45" then some 585 else none)
        ⟨"DL7", "B2", "ATL", "Yes", "no", "", some "9:25", some "9:45",
          some "banana"⟩ ∈
      upcomingView 0
        [loadFlight
          (fun t => if t = "9:25" then some (565 : Int)
            else if t = "9:45" then some 585 else none)
          ⟨"DL7", "B2", "ATL", "Yes", "no", "", some "9:25", some "9:45",
            some "banana"⟩] ∧
    (loadFlight
        (fun t => if t = "9:25" then some (565 : Int)
          else if t = "9:45" then some 585 else none)
        ⟨"DL8", "B3", "ATL", "Yes", "no", "", some "9:25", some "banana",
          some "9:45"⟩).boardEnd? = none ∧
    loadFlight
        (fun t => if t = "9:25" then some (565 : Int)
          else if t = "9:45" then some 585 else none)
        ⟨"DL8", "B3", "ATL", "Yes", "no", "", some "9:25", some "banana",
          some "9:45"⟩ ∈
      upcomingView 0
        [loadFlight
          (fun t => if t = "9:25" then some (565 : Int)
            else if t = "9:45" then some 585 else none)
          ⟨"DL8", "B3", "ATL", "Yes", "no", "", some "9:25", some "banana",
            some "9:45"⟩] := by
  decide

end FlightObs
